import Mathlib

/-!
Verification of the ADF z-statistic critical-value simulation
(`adf_z_critical_values_simulation_joblib.py`).

Embedding conventions:
* IEEE double arithmetic is idealised as exact rational arithmetic (`ℚ`).
  The single place where a NaN can arise in the program is the columnwise
  division `gamma = xpy / xpx` when `xpx = 0` (then `xpy = 0` as well, so the
  IEEE result is `0/0 = NaN`, which then propagates through `nobs*(gamma-1)`).
  A statistic is therefore modelled as `Option ℚ`, `none` standing for NaN.
* A NumPy `RandomState` is modelled as a stream of standard-normal deviates
  `ℕ → ℚ` together with a position; `standard_normal((r, c))` consumes
  `r*c` consecutive deviates and lays them out in C (row-major) order,
  advancing the position.  The map from a seed to its deviate stream is an
  arbitrary parameter `Φ : ℕ → ℕ → ℚ`.
* Matrices are functions `Fin r → Fin c → ℚ`; `numpy.linalg.pinv` on the
  full-column-rank regressor matrices used here equals the normal-equations
  form `(Zᵀ Z)⁻¹ Zᵀ`, which is what `pinvM` computes.
-/

open Finset

/-- A real matrix with `r` rows and `c` columns. -/
abbrev Mat (r c : ℕ) : Type := Fin r → Fin c → ℚ

/-- Matrix product (`numpy.dot`). -/
def mulM {r m c : ℕ} (A : Mat r m) (B : Mat m c) : Mat r c :=
  fun i j => ∑ k : Fin m, A i k * B k j

/-- Matrix transpose (`.T`). -/
def trM {r c : ℕ} (A : Mat r c) : Mat c r := fun i j => A j i

/-- Entrywise difference. -/
def subM {r c : ℕ} (A B : Mat r c) : Mat r c := fun i j => A i j - B i j

/-- Minor of a square matrix: delete row `i` and column `j`. -/
def minorM {k : ℕ} (A : Mat (k + 1) (k + 1)) (i j : Fin (k + 1)) : Mat k k :=
  fun r c => A (i.succAbove r) (j.succAbove c)

/-- Determinant by Laplace expansion along the first column. -/
def detM : {k : ℕ} → Mat k k → ℚ
  | 0, _ => 1
  | _ + 1, A => ∑ i, (-1) ^ (i.val) * A i 0 * detM (minorM A i 0)

/-- Adjugate (transposed cofactor matrix). -/
def adjM : {k : ℕ} → Mat k k → Mat k k
  | 0, _ => fun i _ => Fin.elim0 i
  | _ + 1, A => fun i j => (-1) ^ (i.val + j.val) * detM (minorM A j i)

/-- Inverse of a square rational matrix via the adjugate formula. -/
def invM {k : ℕ} (A : Mat k k) : Mat k k :=
  fun i j => (detM A)⁻¹ * adjM A i j

/-- `numpy.linalg.pinv` for a full-column-rank `Z`: `(Zᵀ Z)⁻¹ Zᵀ`. -/
def pinvM {r c : ℕ} (Z : Mat r c) : Mat c r :=
  mulM (invM (mulM (trM Z) Z)) (trM Z)

/-- The deterministic regressor matrix the source builds for a trend tag:
`'c'` a column of ones, `'ct'` columns `{1, t}`, `'ctt'` columns `{1, t, t²}`
with `t = 1..nobs`; any other tag leaves `z = None`. -/
def trendZ (trend : String) (nobs : ℕ) : Option ((k : ℕ) × Mat nobs k) :=
  if trend = "c" then
    some ⟨1, fun _ _ => 1⟩
  else if trend = "ct" then
    some ⟨2, fun i j => if j.val = 0 then 1 else (i.val : ℚ) + 1⟩
  else if trend = "ctt" then
    some ⟨3, fun i j =>
      if j.val = 0 then 1
      else if j.val = 1 then (i.val : ℚ) + 1
      else ((i.val : ℚ) + 1) ^ 2⟩
  else none

/-- The detrending step of `adf_simulation`:
`beta = dot(pinv(z), s); s - dot(z, beta)`. -/
def detrendWith {nobs b k : ℕ} (z : Mat nobs k) (s : Mat nobs b) : Mat nobs b :=
  subM s (mulM z (mulM (pinvM z) s))

/-- Detrending as the source dispatches it: if the tag built a regressor
matrix, project it out; with `z = None` the series is left untouched. -/
def detrendOpt {nobs b : ℕ} (trend : String) (s : Mat nobs b) : Mat nobs b :=
  match trendZ trend nobs with
  | none => s
  | some zk => detrendWith zk.2 s

/-- A `numpy.random.RandomState`, abstracted as the stream of standard-normal
deviates it will produce, plus the number already consumed. -/
structure RngState where
  stream : ℕ → ℚ
  pos : ℕ

/-- The state after consuming `k` further deviates. -/
def advance (r : RngState) (k : ℕ) : RngState := ⟨r.stream, r.pos + k⟩

/-- `rng.standard_normal((rows, cols))`: entry `(i, j)` is deviate number
`pos + i*cols + j` (C order). -/
def normalsM (r : RngState) (rows cols : ℕ) : Mat rows cols :=
  fun i j => r.stream (r.pos + i.val * cols + j.val)

/-- `cumsum(y, axis=0)`: running sum down each column. -/
def cumsum0 {rows cols : ℕ} (y : Mat rows cols) : Mat rows cols :=
  fun i j => ∑ q : Fin rows, if q.val ≤ i.val then y q j else 0

/-- `y = cumsum(standard_normal((n+50, b)), axis=0)[50:, :]`: the simulated
random walks after discarding the 50 burn-in rows. -/
def walkM (n b : ℕ) (r : RngState) : Mat n b :=
  fun i j =>
    cumsum0 (normalsM r (n + 50) b) ⟨i.val + 50, Nat.add_lt_add_right i.isLt 50⟩ j

/-- `lhs = y[1:, :]`. -/
def lhsM (n b : ℕ) (r : RngState) : Mat (n - 1) b :=
  fun i j => walkM n b r ⟨i.val + 1, by have h := i.isLt; omega⟩ j

/-- `rhs = y[:-1, :]`. -/
def rhsM (n b : ℕ) (r : RngState) : Mat (n - 1) b :=
  fun i j => walkM n b r ⟨i.val, by have h := i.isLt; omega⟩ j

/-- The detrended `lhs` series. -/
def lhsDetrended (n : ℕ) (trend : String) (b : ℕ) (r : RngState) : Mat (n - 1) b :=
  detrendOpt trend (lhsM n b r)

/-- The detrended `rhs` series. -/
def rhsDetrended (n : ℕ) (trend : String) (b : ℕ) (r : RngState) : Mat (n - 1) b :=
  detrendOpt trend (rhsM n b r)

/-- `xpx = sum(rhs ** 2.0, 0)` for column `j`: the sum of squares of the
detrended lagged series. -/
def xpxOf (n : ℕ) (trend : String) (b : ℕ) (r : RngState) (j : Fin b) : ℚ :=
  ∑ i : Fin (n - 1), rhsDetrended n trend b r i j ^ 2

/-- Columnwise statistic: `gamma = xpy/xpx`, `stat = nobs*(gamma - 1)`.
When `xpx = 0` the IEEE quotient is `0/0 = NaN` and the statistic is NaN,
modelled as `none`. -/
def adfStat {nobs b : ℕ} (lhs rhs : Mat nobs b) (j : Fin b) : Option ℚ :=
  let xpy := ∑ i : Fin nobs, rhs i j * lhs i j
  let xpx := ∑ i : Fin nobs, rhs i j ^ 2
  if xpx = 0 then none else some ((nobs : ℚ) * (xpy / xpx - 1))

/-- `adf_simulation(n, trend, b, rng)`: the statistic vector for one batch.
(The `rng=None` default of the source is irrelevant here: its only caller
always passes an explicitly seeded state.) -/
def adf_simulation (n : ℕ) (trend : String) (b : ℕ) (r : RngState) :
    List (Option ℚ) :=
  List.ofFn fun j : Fin b =>
    adfStat (lhsDetrended n trend b r) (rhsDetrended n trend b r) j

/-- `block_size = int(2 ** 20.0 * M / (8.0 * n))` in exact arithmetic:
the floor of `2^20·M / (8·n)`. -/
def blockSize (M n : ℕ) : ℕ := 2 ^ 20 * M / (8 * n)

/-- The `for j in range(0, b, block_size)` loop of `wrapper`: each pass
computes `count = min(block_size, remaining)` statistics with the shared
rng (which `adf_simulation` advances by `(n+50)*count` deviates) and
appends them to the result. -/
def wrapperLoop (n : ℕ) (trend : String) (bs : ℕ) (remaining : ℕ)
    (r : RngState) : List (Option ℚ) :=
  if h : remaining = 0 ∨ bs = 0 then []
  else
    adf_simulation n trend (min bs remaining) r ++
      wrapperLoop n trend bs (remaining - min bs remaining)
        (advance r ((n + 50) * min bs remaining))
termination_by remaining
decreasing_by
  push_neg at h
  have hmin : 1 ≤ min bs remaining := by omega
  omega

/-- `wrapper(n, trend, b, seed)` with memory budget `M` MiB and seed-to-stream
map `Φ`: seeds a fresh `RandomState`, computes the block size, and loops.
A zero block size makes Python's `range(0, b, 0)` raise `ValueError` before
any simulation work, modelled as `none`. -/
def wrapper (M : ℕ) (Φ : ℕ → ℕ → ℚ) (n : ℕ) (trend : String) (b : ℕ)
    (seed : ℕ) : Option (List (Option ℚ)) :=
  if blockSize M n = 0 then none
  else some (wrapperLoop n trend (blockSize M n) b ⟨Φ seed, 0⟩)

/-- `MAX_MEMORY_SIZE = 100` (MiB). -/
def MAX_MEMORY_SIZE : ℕ := 100

/-- `EX_NUM = 500`: number of experiment repetitions. -/
def EX_NUM : ℕ := 500

/-- `EX_SIZE = 200000`: replications per experiment. -/
def EX_SIZE : ℕ := 200000

/-- The sample-size grid `T` after the `T = T[::-1]` reversal. -/
def Tlist : List ℕ :=
  [2000, 1400, 1200, 1000, 900, 800, 700, 600, 500, 450, 400, 350, 300,
   250, 200, 180, 160, 140, 120, 100, 90, 80, 70, 60, 50, 45, 40, 35, 30,
   25, 20]

/-- `seeds = rng.random_integers(0, 2**31 - 2, size=EX_NUM)`: the schedule of
`EX_NUM` seeds, drawn in full from the master source `Ψ` (the integer stream
of `RandomState(0)`, abstracted) before any experiment iteration runs. -/
def seedSchedule (Ψ : ℕ → ℕ) : List ℕ := (List.range EX_NUM).map Ψ

/-- One invocation of the batch runner as dispatched by the driver. -/
structure SimCall where
  n : ℕ
  trend : String
  b : ℕ
  seed : ℕ

/-- The fan-out of experiment iteration `i` for trend `tr`:
`parallel(p_func(t, tr, EX_SIZE, seed=seeds[i]) for t in T)`. -/
def experimentCalls (Ψ : ℕ → ℕ) (tr : String) (i : ℕ) : List SimCall :=
  Tlist.map fun t => ⟨t, tr, EX_SIZE, (seedSchedule Ψ).getD i 0⟩

/-! ### The specification-side model (§4.1–§4.2 of the spec)

These definitions follow the spec's words, to be compared with the
source-side definitions above. -/

/-- The spec's `TrendSpec` enumeration. -/
inductive TrendSpec where
  | none
  | constant
  | constantTrend
  | constantTrendTrend2
deriving DecidableEq

/-- The tag the source uses for each `TrendSpec`. -/
def tagOf : TrendSpec → String
  | .none => "nc"
  | .constant => "c"
  | .constantTrend => "ct"
  | .constantTrendTrend2 => "ctt"

/-- The spec's Trend Projector `build`: for `none` an empty (zero-column)
matrix, for `constant` a single column of ones, for `constant+trend`
columns `{ones, 1..nobs}`, for `constant+trend+trend²` additionally the
squares. -/
def buildSpec (ts : TrendSpec) (nobs : ℕ) : (k : ℕ) × Mat nobs k :=
  match ts with
  | .none => ⟨0, fun _ j => Fin.elim0 j⟩
  | .constant => ⟨1, fun _ _ => 1⟩
  | .constantTrend => ⟨2, fun i j => if j.val = 0 then 1 else (i.val : ℚ) + 1⟩
  | .constantTrendTrend2 => ⟨3, fun i j =>
      if j.val = 0 then 1
      else if j.val = 1 then (i.val : ℚ) + 1
      else ((i.val : ℚ) + 1) ^ 2⟩

/-- The spec's Trend Projector `project`: `series − Z·(pinv(Z)·series)`. -/
def projectSpec {nobs b k : ℕ} (Z : Mat nobs k) (s : Mat nobs b) : Mat nobs b :=
  fun i j => s i j - mulM Z (mulM (pinvM Z) s) i j

/-- Spec §4.2: the `(n+50)×b` matrix of independent standard-normal draws. -/
def specDraws (n b : ℕ) (r : RngState) : Mat (n + 50) b :=
  fun i j => r.stream (r.pos + i.val * b + j.val)

/-- Spec §4.2: the running cumulative sum down each column. -/
def specPath (n b : ℕ) (r : RngState) : Mat (n + 50) b :=
  fun i j => ∑ q : Fin (n + 50), if q.val ≤ i.val then specDraws n b r q j else 0

/-- Spec §4.2: the paths after discarding the first 50 (burn-in) rows. -/
def specKept (n b : ℕ) (r : RngState) : Mat n b :=
  fun i j => specPath n b r ⟨i.val + 50, by have h := i.isLt; omega⟩ j

/-- Spec §4.2: `lhs` = rows `1..n-1` (the "now" observations). -/
def specLhs (n b : ℕ) (r : RngState) : Mat (n - 1) b :=
  fun i j => specKept n b r ⟨i.val + 1, by have h := i.isLt; omega⟩ j

/-- Spec §4.2: `rhs` = rows `0..n-2` (the lagged observations). -/
def specRhs (n b : ℕ) (r : RngState) : Mat (n - 1) b :=
  fun i j => specKept n b r ⟨i.val, by have h := i.isLt; omega⟩ j

/-- The spec's Statistic Generator `simulate` (§4.2), written from its words:
draw `(n+50)×b` normals, cumulate down columns, discard 50 burn-in rows,
split into `lhs` (rows `1..n-1`) and `rhs` (rows `0..n-2`), detrend both with
the same regressor matrix built for `n-1` observations, and per column return
`(n−1)·(γ−1)` with `γ = (Σ rhs·lhs)/(Σ rhs²)` (NaN when the denominator
vanishes). -/
def simulateSpec (n : ℕ) (ts : TrendSpec) (b : ℕ) (r : RngState) :
    List (Option ℚ) :=
  let lhs1 := projectSpec (buildSpec ts (n - 1)).2 (specLhs n b r)
  let rhs1 := projectSpec (buildSpec ts (n - 1)).2 (specRhs n b r)
  List.ofFn fun j : Fin b =>
    let num := ∑ i : Fin (n - 1), rhs1 i j * lhs1 i j
    let den := ∑ i : Fin (n - 1), rhs1 i j ^ 2
    if den = 0 then Option.none
    else some (((n : ℚ) - 1) * (num / den - 1))

/-! ### Helper lemmas -/

lemma trendZ_c (nobs : ℕ) : trendZ "c" nobs = some ⟨1, fun _ _ => 1⟩ := by
  simp [trendZ]

lemma trendZ_ct (nobs : ℕ) :
    trendZ "ct" nobs =
      some ⟨2, fun i j => if j.val = 0 then 1 else (i.val : ℚ) + 1⟩ := by
  simp [trendZ]

lemma trendZ_ctt (nobs : ℕ) :
    trendZ "ctt" nobs =
      some ⟨3, fun i j =>
        if j.val = 0 then 1
        else if j.val = 1 then (i.val : ℚ) + 1
        else ((i.val : ℚ) + 1) ^ 2⟩ := by
  simp [trendZ]

lemma trendZ_of_not_mem (trend : String) (nobs : ℕ)
    (h : trend ∉ (["c", "ct", "ctt"] : List String)) :
    trendZ trend nobs = none := by
  simp only [List.mem_cons, List.mem_singleton, not_or] at h
  obtain ⟨h1, h2, h3⟩ := h
  simp [trendZ, h1, h2, h3]

lemma trendZ_nc (nobs : ℕ) : trendZ "nc" nobs = none :=
  trendZ_of_not_mem "nc" nobs (by decide)

lemma detrendOpt_nc {nobs b : ℕ} (s : Mat nobs b) :
    detrendOpt "nc" s = s := by
  simp [detrendOpt, trendZ_nc]

lemma detrendOpt_of_not_mem {nobs b : ℕ} (trend : String)
    (h : trend ∉ (["c", "ct", "ctt"] : List String)) (s : Mat nobs b) :
    detrendOpt trend s = s := by
  simp [detrendOpt, trendZ_of_not_mem trend nobs h]

lemma detrendWith_zero_cols {nobs b : ℕ} (Z : Mat nobs 0) (s : Mat nobs b) :
    detrendWith Z s = s := by
  funext i j
  simp [detrendWith, subM, mulM]

lemma projectSpec_zero_cols {nobs b : ℕ} (Z : Mat nobs 0) (s : Mat nobs b) :
    projectSpec Z s = s := by
  funext i j
  simp [projectSpec, mulM]

lemma projectSpec_eq_detrendWith {nobs b k : ℕ} (Z : Mat nobs k)
    (s : Mat nobs b) : projectSpec Z s = detrendWith Z s := rfl

lemma adfStat_of_zeros {nobs b : ℕ} (lhs rhs : Mat nobs b) (j : Fin b)
    (hr : ∀ i, rhs i j = 0) : adfStat lhs rhs j = none := by
  simp [adfStat, hr]

lemma adfStat_of_ones {nobs b : ℕ} (hn : 0 < nobs) (lhs rhs : Mat nobs b)
    (j : Fin b) (hl : ∀ i, lhs i j = 1) (hr : ∀ i, rhs i j = 1) :
    adfStat lhs rhs j = some 0 := by
  have hx : (∑ i : Fin nobs, rhs i j ^ 2) = (nobs : ℚ) := by
    simp [hr]
  have hy : (∑ i : Fin nobs, rhs i j * lhs i j) = (nobs : ℚ) := by
    simp [hr, hl]
  have hne : (nobs : ℚ) ≠ 0 := Nat.cast_ne_zero.mpr hn.ne'
  simp only [adfStat, hx, hy]
  rw [if_neg hne, div_self hne]
  simp

lemma detM_dim1 (A : Mat 1 1) : detM A = A 0 0 := by
  simp [detM, Fin.sum_univ_one]

lemma adjM_dim1 (A : Mat 1 1) (i j : Fin 1) : adjM A i j = 1 := by
  have hi : i = 0 := Fin.eq_zero i
  have hj : j = 0 := Fin.eq_zero j
  subst hi hj
  simp [adjM, detM]

lemma invM_dim1 (A : Mat 1 1) (i j : Fin 1) : invM A i j = (A 0 0)⁻¹ := by
  simp [invM, detM_dim1, adjM_dim1]

lemma detrendOpt_c_apply {nobs b : ℕ} (s : Mat nobs b) (i : Fin nobs)
    (j : Fin b) :
    detrendOpt "c" s i j = s i j - (nobs : ℚ)⁻¹ * ∑ q : Fin nobs, s q j := by
  have hpinv : ∀ q : Fin nobs,
      pinvM ((fun _ _ => (1 : ℚ)) : Mat nobs 1) (0 : Fin 1) q = (nobs : ℚ)⁻¹ := by
    intro q
    simp only [pinvM, mulM, trM, Fin.sum_univ_one]
    rw [invM_dim1]
    simp [mulM, trM]
  simp only [detrendOpt, trendZ_c]
  simp only [detrendWith, subM]
  congr 1
  simp only [mulM, Fin.sum_univ_one, one_mul]
  rw [Finset.mul_sum]
  refine Finset.sum_congr rfl fun q _ => ?_
  rw [hpinv q]

lemma wrapperLoop_nil (n : ℕ) (trend : String) (bs : ℕ) (r : RngState) :
    wrapperLoop n trend bs 0 r = [] := by
  rw [wrapperLoop]
  simp

lemma wrapperLoop_cons (n : ℕ) (trend : String) (bs remaining : ℕ)
    (r : RngState) (h1 : remaining ≠ 0) (h2 : bs ≠ 0) :
    wrapperLoop n trend bs remaining r =
      adf_simulation n trend (min bs remaining) r ++
        wrapperLoop n trend bs (remaining - min bs remaining)
          (advance r ((n + 50) * min bs remaining)) := by
  rw [wrapperLoop]
  simp [h1, h2]

lemma cumsum0_of_zero_col {rows cols : ℕ} (y : Mat rows cols) (j : Fin cols)
    (hy : ∀ i, y i j = 0) (i : Fin rows) : cumsum0 y i j = 0 := by
  simp [cumsum0, hy]

lemma cumsum0_of_indicator {rows cols : ℕ} (y : Mat rows cols) (j : Fin cols)
    (i0 : ℕ) (h0 : i0 < rows) (hy : ∀ i, y i j = if i.val = i0 then 1 else 0)
    (i : Fin rows) : cumsum0 y i j = if i0 ≤ i.val then 1 else 0 := by
  unfold cumsum0
  have hterm : ∀ q : Fin rows,
      (if q.val ≤ i.val then y q j else 0) =
        if q = (⟨i0, h0⟩ : Fin rows) then (if i0 ≤ i.val then (1 : ℚ) else 0)
        else 0 := by
    intro q
    rw [hy q]
    by_cases hq : q = (⟨i0, h0⟩ : Fin rows)
    · subst hq
      simp
    · have hv : q.val ≠ i0 := by
        intro hv
        exact hq (Fin.ext hv)
      simp [hq, hv]
  rw [Finset.sum_congr rfl fun q _ => hterm q]
  rw [Finset.sum_ite_eq' Finset.univ (⟨i0, h0⟩ : Fin rows)
    (fun _ => if i0 ≤ i.val then (1 : ℚ) else 0)]
  simp

lemma adf_nc_apply (n b : ℕ) (r : RngState) :
    adf_simulation n "nc" b r =
      List.ofFn fun j : Fin b => adfStat (lhsM n b r) (rhsM n b r) j := by
  simp [adf_simulation, lhsDetrended, rhsDetrended, detrendOpt_nc]

lemma walkM_col_one {n b : ℕ} (r : RngState) (j : Fin b) (i0 : ℕ)
    (h50 : i0 ≤ 50) (h0 : i0 < n + 50)
    (hy : ∀ i : Fin (n + 50), normalsM r (n + 50) b i j = if i.val = i0 then 1 else 0)
    (i : Fin n) : walkM n b r i j = 1 := by
  unfold walkM
  rw [cumsum0_of_indicator _ j i0 h0 hy]
  show (if i0 ≤ i.val + 50 then (1 : ℚ) else 0) = 1
  rw [if_pos (by omega)]

lemma walkM_col_zero {n b : ℕ} (r : RngState) (j : Fin b)
    (hy : ∀ i : Fin (n + 50), normalsM r (n + 50) b i j = 0)
    (i : Fin n) : walkM n b r i j = 0 := by
  unfold walkM
  exact cumsum0_of_zero_col _ j hy _

lemma adfStat_walk_one (n b : ℕ) (r : RngState) (j : Fin b) (h2 : 2 ≤ n)
    (hw : ∀ i : Fin n, walkM n b r i j = 1) :
    adfStat (lhsM n b r) (rhsM n b r) j = some 0 := by
  refine adfStat_of_ones (by omega) _ _ j (fun i => ?_) (fun i => ?_)
  · exact hw _
  · exact hw _

lemma adfStat_walk_zero (n b : ℕ) (r : RngState) (j : Fin b)
    (hw : ∀ i : Fin n, walkM n b r i j = 0) :
    adfStat (lhsM n b r) (rhsM n b r) j = none :=
  adfStat_of_zeros _ _ j fun i => hw _

/-- A deviate stream with a single unit pulse at index 1, used to separate
the blocked and unblocked executions of `wrapper`. -/
def pulse : ℕ → ℚ := fun k => if k = 1 then 1 else 0

/-- A seed-to-stream map sending every seed to `pulse`. -/
def pulsePhi : ℕ → ℕ → ℚ := fun _ => pulse

lemma adf_pulse_first : adf_simulation 65537 "nc" 1 ⟨pulse, 0⟩ = [some 0] := by
  rw [adf_nc_apply]
  have hcol : ∀ j : Fin 1,
      adfStat (lhsM 65537 1 ⟨pulse, 0⟩) (rhsM 65537 1 ⟨pulse, 0⟩) j = some 0 := by
    intro j
    refine adfStat_walk_one _ _ _ _ (by norm_num) fun i => ?_
    refine walkM_col_one _ j 1 (by norm_num) (by norm_num) (fun q => ?_) i
    have hj : (j : ℕ) = 0 := Nat.lt_one_iff.mp j.isLt
    show (if 0 + q.val * 1 + (j : ℕ) = 1 then (1 : ℚ) else 0)
      = if q.val = 1 then 1 else 0
    rw [hj]
    by_cases hq : q.val = 1
    · rw [if_pos (by omega), if_pos hq]
    · rw [if_neg (by omega), if_neg hq]
  simp [List.ofFn_succ, hcol]

lemma adf_pulse_second :
    adf_simulation 65537 "nc" 1 ⟨pulse, 65587⟩ = [none] := by
  rw [adf_nc_apply]
  have hcol : ∀ j : Fin 1,
      adfStat (lhsM 65537 1 ⟨pulse, 65587⟩) (rhsM 65537 1 ⟨pulse, 65587⟩) j
        = none := by
    intro j
    refine adfStat_walk_zero _ _ _ _ fun i => ?_
    refine walkM_col_zero _ j (fun q => ?_) i
    show (if 65587 + q.val * 1 + (j : ℕ) = 1 then (1 : ℚ) else 0) = 0
    rw [if_neg (by omega)]
  simp [List.ofFn_succ, hcol]

lemma adf_pulse_joint : adf_simulation 65537 "nc" 2 ⟨pulse, 0⟩ = [none, some 0] := by
  rw [adf_nc_apply]
  have hc0 : adfStat (lhsM 65537 2 ⟨pulse, 0⟩) (rhsM 65537 2 ⟨pulse, 0⟩)
      (0 : Fin 2) = none := by
    refine adfStat_walk_zero _ _ _ _ fun i => ?_
    refine walkM_col_zero _ (0 : Fin 2) (fun q => ?_) i
    show (if 0 + q.val * 2 + 0 = 1 then (1 : ℚ) else 0) = 0
    rw [if_neg (by omega)]
  have hc1 : adfStat (lhsM 65537 2 ⟨pulse, 0⟩) (rhsM 65537 2 ⟨pulse, 0⟩)
      (1 : Fin 2) = some 0 := by
    refine adfStat_walk_one _ _ _ _ (by norm_num) fun i => ?_
    refine walkM_col_one _ (1 : Fin 2) 0 (by norm_num) (by norm_num)
      (fun q => ?_) i
    show (if 0 + q.val * 2 + 1 = 1 then (1 : ℚ) else 0)
      = if q.val = 0 then 1 else 0
    by_cases hq : q.val = 0
    · rw [if_pos (by omega), if_pos hq]
    · rw [if_neg (by omega), if_neg hq]
  have hofn : (List.ofFn fun j : Fin 2 =>
      adfStat (lhsM 65537 2 ⟨pulse, 0⟩) (rhsM 65537 2 ⟨pulse, 0⟩) j)
        = [none, some 0] := by
    simp [List.ofFn_succ, hc0, hc1]
  exact hofn

lemma wrapper_budget1 :
    wrapper 1 pulsePhi 65537 "nc" 2 0 = some [some 0, none] := by
  have hbs : blockSize 1 65537 = 1 := by norm_num [blockSize]
  unfold wrapper
  rw [hbs, if_neg (by norm_num)]
  have h1 : wrapperLoop 65537 "nc" 1 2 ⟨pulsePhi 0, 0⟩ =
      adf_simulation 65537 "nc" 1 ⟨pulse, 0⟩ ++
        wrapperLoop 65537 "nc" 1 1 ⟨pulse, 65587⟩ := by
    rw [wrapperLoop_cons _ _ _ _ _ (by norm_num) (by norm_num)]
    norm_num [advance, pulsePhi]
  have h2 : wrapperLoop 65537 "nc" 1 1 ⟨pulse, 65587⟩ =
      adf_simulation 65537 "nc" 1 ⟨pulse, 65587⟩ ++
        wrapperLoop 65537 "nc" 1 0 ⟨pulse, 131174⟩ := by
    rw [wrapperLoop_cons _ _ _ _ _ (by norm_num) (by norm_num)]
    norm_num [advance]
  rw [h1, h2, wrapperLoop_nil, adf_pulse_first, adf_pulse_second]
  rfl

lemma wrapper_budget100 :
    wrapper 100 pulsePhi 65537 "nc" 2 0 = some [none, some 0] := by
  have hbs : blockSize 100 65537 = 199 := by norm_num [blockSize]
  unfold wrapper
  rw [hbs, if_neg (by norm_num)]
  have h1 : wrapperLoop 65537 "nc" 199 2 ⟨pulsePhi 0, 0⟩ =
      adf_simulation 65537 "nc" 2 ⟨pulse, 0⟩ ++
        wrapperLoop 65537 "nc" 199 0 ⟨pulse, 131174⟩ := by
    rw [wrapperLoop_cons _ _ _ _ _ (by norm_num) (by norm_num)]
    norm_num [advance, pulsePhi]
  rw [h1, wrapperLoop_nil, adf_pulse_joint]
  rfl

/-! ### Claim theorems -/

/-- C1, counterexample: the Memory-Bounded Batch Runner is NOT bit-identical
across memory budgets.  At `n = 65537`, `trend = 'nc'`, `b = 2`, `seed = 0`,
a 1 MiB budget gives block size 1 (two blocks) while a 100 MiB budget gives
block size 199 (one block); the row-major layout of `standard_normal((n+50, b))`
then assigns the same deviate stream to different replications, and the two
runs return different StatisticVectors. -/
theorem wrapper_not_budget_invariant :
    wrapper 1 pulsePhi 65537 "nc" 2 0 ≠ wrapper 100 pulsePhi 65537 "nc" 2 0 := by
  rw [wrapper_budget1, wrapper_budget100]
  simp

/-- C1 (amended): `wrapper(n, trend, b, seed)` returns a bit-identical
StatisticVector for two memory budgets whenever they induce the same block
size (in particular for equal budgets); with different block sizes the draws
are reassigned across replications and the vectors differ in general. -/
theorem wrapper_same_blockSize_deterministic (M1 M2 : ℕ) (Φ : ℕ → ℕ → ℚ)
    (n : ℕ) (trend : String) (b seed : ℕ)
    (h : blockSize M1 n = blockSize M2 n) :
    wrapper M1 Φ n trend b seed = wrapper M2 Φ n trend b seed := by
  unfold wrapper
  rw [h]

/-- Witness for C1 (amended): budgets 3 MiB and 4 MiB both induce block size 1
at `n = 393216`, so the runs agree. -/
theorem wrapper_same_blockSize_deterministic_witness :
    blockSize 3 393216 = blockSize 4 393216 ∧
      wrapper 3 pulsePhi 393216 "c" 5 0 = wrapper 4 pulsePhi 393216 "c" 5 0 :=
  ⟨by norm_num [blockSize],
    wrapper_same_blockSize_deterministic 3 4 pulsePhi 393216 "c" 5 0
      (by norm_num [blockSize])⟩

/-- C3, counterexample: the block size is NOT clamped to at least 1: with the
configured 100 MiB budget and `n = 13107201`, `int(2**20*100/(8*n))` is 0,
not the claimed `max 1 ⌊2^20·100/(8·n)⌋ = 1`. -/
theorem blockSize_not_clamped :
    blockSize 100 13107201 = 0 ∧
      blockSize 100 13107201 ≠ max 1 (2 ^ 20 * 100 / (8 * 13107201)) := by
  constructor
  · norm_num [blockSize]
  · norm_num [blockSize]

/-- C3 (amended): for positive `n` the block size equals
`⌊2^20·M/(8·n)⌋` with no clamping; it is at least 1 exactly when
`8·n ≤ 2^20·M`, and when it is 0 (budget too small for one replication of
length `n`) the runner fails (`range(0, b, 0)` raises) before any simulation
work, returning no StatisticVector. -/
theorem blockSize_floor_no_clamp (M n : ℕ) (h : 1 ≤ n) :
    blockSize M n = 2 ^ 20 * M / (8 * n) ∧
      (1 ≤ blockSize M n ↔ 8 * n ≤ 2 ^ 20 * M) ∧
      (blockSize M n = 0 →
        ∀ (Φ : ℕ → ℕ → ℚ) (trend : String) (b seed : ℕ),
          wrapper M Φ n trend b seed = none) := by
  refine ⟨rfl, ?_, ?_⟩
  · unfold blockSize
    rw [Nat.le_div_iff_mul_le (by omega), one_mul]
  · intro h0 Φ trend b seed
    unfold wrapper
    rw [h0]
    simp

/-- Witness for C3 (amended), at the counterexample's input. -/
theorem blockSize_floor_no_clamp_witness :
    1 ≤ 13107201 ∧
      (blockSize 100 13107201 = 2 ^ 20 * 100 / (8 * 13107201) ∧
        (1 ≤ blockSize 100 13107201 ↔ 8 * 13107201 ≤ 2 ^ 20 * 100) ∧
        (blockSize 100 13107201 = 0 →
          ∀ (Φ : ℕ → ℕ → ℚ) (trend : String) (b seed : ℕ),
            wrapper 100 Φ 13107201 trend b seed = none)) :=
  ⟨by norm_num, blockSize_floor_no_clamp 100 13107201 (by norm_num)⟩

/-- C4, counterexample: an invalid trend tag does NOT raise before simulation
work starts — `adf_simulation(3, 'invalid', 2, rng)` silently runs to
completion and returns a StatisticVector (here `[NaN, NaN]` for the all-zero
deviate stream, the same as trend `'nc'` would give). -/
theorem invalid_trend_returns_vector :
    adf_simulation 3 "invalid" 2 ⟨fun _ => 0, 0⟩ = [none, none] := by
  have hdo : ∀ s : Mat (3 - 1) 2, detrendOpt "invalid" s = s :=
    detrendOpt_of_not_mem "invalid" (by decide)
  simp only [adf_simulation, lhsDetrended, rhsDetrended, hdo]
  have hcol : ∀ j : Fin 2,
      adfStat (lhsM 3 2 ⟨fun _ => 0, 0⟩) (rhsM 3 2 ⟨fun _ => 0, 0⟩) j = none := by
    intro j
    refine adfStat_walk_zero _ _ _ _ fun i => ?_
    exact @walkM_col_zero 3 2 ⟨fun _ => 0, 0⟩ j (fun q => rfl) i
  simp [List.ofFn_succ, hcol]

/-- C4 (amended): a trend tag outside `{'c','ct','ctt'}` is silently accepted:
no regressor matrix is built, detrending is skipped, and the simulation
returns exactly the statistic vector of the no-trend case `'nc'`; no error is
ever raised. -/
theorem invalid_trend_treated_as_nc (n b : ℕ) (r : RngState) (trend : String)
    (h : trend ∉ (["c", "ct", "ctt"] : List String)) :
    adf_simulation n trend b r = adf_simulation n "nc" b r := by
  simp only [adf_simulation, lhsDetrended, rhsDetrended,
    detrendOpt_of_not_mem trend h, detrendOpt_nc]

/-- Witness for C4 (amended) at the concrete invalid tag `'zz'`. -/
theorem invalid_trend_treated_as_nc_witness :
    ("zz" ∉ (["c", "ct", "ctt"] : List String)) ∧
      adf_simulation 4 "zz" 1 ⟨pulse, 0⟩ = adf_simulation 4 "nc" 1 ⟨pulse, 0⟩ :=
  ⟨by decide, invalid_trend_treated_as_nc 4 1 ⟨pulse, 0⟩ "zz" (by decide)⟩

/-- C10: for a fixed memory budget, `wrapper` is a pure function of its
arguments: it seeds a fresh `RandomState` from `seed` on every call, so its
result depends on the ambient randomness only through the stream that `seed`
determines — any two randomness environments agreeing on that stream (e.g.
different global random states, or histories with different earlier calls)
give identical StatisticVectors. -/
theorem wrapper_depends_only_on_seed_stream (M : ℕ) (Φ1 Φ2 : ℕ → ℕ → ℚ)
    (n : ℕ) (trend : String) (b seed : ℕ) (h : Φ1 seed = Φ2 seed) :
    wrapper M Φ1 n trend b seed = wrapper M Φ2 n trend b seed := by
  unfold wrapper
  rw [h]

/-- Witness for C10: two different seed-to-stream environments agreeing at
seed 7 give the same run. -/
theorem wrapper_depends_only_on_seed_stream_witness :
    (pulsePhi 7 = (fun s k => if s = 7 then pulse k else 1) 7) ∧
      wrapper 100 pulsePhi 5 "ct" 3 7 =
        wrapper 100 (fun s k => if s = 7 then pulse k else 1) 5 "ct" 3 7 := by
  have h : pulsePhi 7 = (fun s k => if s = 7 then pulse k else 1) 7 := by
    funext k
    simp [pulsePhi]
  exact ⟨h, wrapper_depends_only_on_seed_stream 100 _ _ 5 "ct" 3 7 h⟩

/-- C5: when a column's detrended lagged series has zero sum of squares,
`adf_simulation` returns NaN (`none`) as that column's statistic — the
(total) computation never aborts, and the NaN sits in the returned
StatisticVector at that column's position. -/
theorem degenerate_rhs_gives_nan (n : ℕ) (trend : String) (b : ℕ)
    (r : RngState) (j : Fin b) (h : xpxOf n trend b r j = 0) :
    (adf_simulation n trend b r).get
      ⟨j.val, by simpa [adf_simulation] using j.isLt⟩ = none := by
  unfold xpxOf at h
  simp only [adf_simulation, List.get_eq_getElem, List.getElem_ofFn, Fin.eta]
  simp only [adfStat]
  rw [if_pos h]

/-- Witness for C5: the all-zero deviate stream at `n = 2`, `b = 1` makes the
lagged series identically zero and the statistic NaN. -/
theorem degenerate_rhs_gives_nan_witness :
    xpxOf 2 "nc" 1 ⟨fun _ => 0, 0⟩ 0 = 0 ∧
      (adf_simulation 2 "nc" 1 ⟨fun _ => 0, 0⟩).get
        ⟨0, by simp [adf_simulation]⟩ = none := by
  have hz : ∀ i : Fin (2 - 1),
      rhsDetrended 2 "nc" 1 ⟨fun _ => 0, 0⟩ i 0 = 0 := by
    intro i
    unfold rhsDetrended
    rw [detrendOpt_nc]
    unfold rhsM
    exact @walkM_col_zero 2 1 ⟨fun _ => 0, 0⟩ 0 (fun q => rfl) _
  have h : xpxOf 2 "nc" 1 ⟨fun _ => 0, 0⟩ 0 = 0 := by
    unfold xpxOf
    simp [hz]
  exact ⟨h, degenerate_rhs_gives_nan 2 "nc" 1 ⟨fun _ => 0, 0⟩ 0 h⟩

set_option maxRecDepth 8000 in
/-- C6: the SeedSchedule has exactly `EX_NUM` entries (fixed up front,
independent of trend and iteration), and within experiment iteration `i`
every sample size of `T` is dispatched with the same seed `seeds[i]` (and
the same replication count `EX_SIZE`). -/
theorem seed_schedule_reused_across_sizes (Ψ : ℕ → ℕ) (tr : String) (i : ℕ)
    (c : SimCall) (hc : c ∈ experimentCalls Ψ tr i) :
    (seedSchedule Ψ).length = EX_NUM ∧
      c.seed = (seedSchedule Ψ).getD i 0 ∧ c.b = EX_SIZE := by
  unfold experimentCalls at hc
  obtain ⟨t, ht, rfl⟩ := List.mem_map.mp hc
  exact ⟨by simp [seedSchedule], rfl, rfl⟩

set_option maxRecDepth 8000 in
/-- Witness for C6: the call for sample size 2000 in iteration 0. -/
theorem seed_schedule_reused_across_sizes_witness :
    ((⟨2000, "nc", EX_SIZE, (seedSchedule (fun k => k + 3)).getD 0 0⟩ : SimCall)
        ∈ experimentCalls (fun k => k + 3) "nc" 0) ∧
      ((seedSchedule (fun k => k + 3)).length = EX_NUM ∧
        (SimCall.seed
            ⟨2000, "nc", EX_SIZE, (seedSchedule (fun k => k + 3)).getD 0 0⟩)
          = (seedSchedule (fun k => k + 3)).getD 0 0 ∧
        (SimCall.b
            ⟨2000, "nc", EX_SIZE, (seedSchedule (fun k => k + 3)).getD 0 0⟩)
          = EX_SIZE) := by
  have hc : (⟨2000, "nc", EX_SIZE,
      (seedSchedule (fun k => k + 3)).getD 0 0⟩ : SimCall)
      ∈ experimentCalls (fun k => k + 3) "nc" 0 := by
    unfold experimentCalls
    exact List.mem_map.mpr ⟨2000, by simp [Tlist], rfl⟩
  exact ⟨hc, seed_schedule_reused_across_sizes (fun k => k + 3) "nc" 0 _ hc⟩

/-- C7: for trend `'nc'` detrending is the identity — projecting on a
zero-column regressor matrix returns the series unchanged (both in the
source's formulation and in the spec's `project`), the source skips the
projection entirely, and `lhs`/`rhs` enter the AR(1) regression exactly as
generated. -/
theorem nc_trend_no_detrending (nobs b n bb : ℕ) (Z : Mat nobs 0)
    (s : Mat nobs b) (r : RngState) :
    detrendWith Z s = s ∧ projectSpec Z s = s ∧ detrendOpt "nc" s = s ∧
      adf_simulation n "nc" bb r =
        List.ofFn (fun j : Fin bb => adfStat (lhsM n bb r) (rhsM n bb r) j) :=
  ⟨detrendWith_zero_cols Z s, projectSpec_zero_cols Z s, detrendOpt_nc s,
    adf_nc_apply n bb r⟩

/-- C8: for trend `'c'` the residual after projection has zero column mean:
each column of `series − Z·(pinv(Z)·series)` with `Z` a column of ones sums
to zero (exactly, in exact arithmetic). -/
theorem constant_detrend_zero_mean (nobs b : ℕ) (h : 1 ≤ nobs)
    (s : Mat nobs b) (j : Fin b) :
    ∑ i : Fin nobs, detrendOpt "c" s i j = 0 := by
  have hne : (nobs : ℚ) ≠ 0 := Nat.cast_ne_zero.mpr (by omega)
  rw [Finset.sum_congr rfl fun i _ => detrendOpt_c_apply s i j]
  rw [Finset.sum_sub_distrib, Finset.sum_const, Finset.card_univ,
    Fintype.card_fin, nsmul_eq_mul, ← mul_assoc, mul_inv_cancel₀ hne,
    one_mul, sub_self]

/-- Witness for C8 at a concrete series. -/
theorem constant_detrend_zero_mean_witness :
    1 ≤ 1 ∧
      ∑ i : Fin 1, detrendOpt "c" ((fun _ _ => 5) : Mat 1 1) i 0 = 0 :=
  ⟨le_refl 1, constant_detrend_zero_mean 1 1 (le_refl 1) _ 0⟩

/-- C9: for `n ≥ 2`, `b ≥ 1` and a valid trend tag, `adf_simulation` returns
a vector of length exactly `b`, and the `'ctt'` regressor matrix has exactly
3 columns and `n-1` rows. -/
theorem shape_invariants (n : ℕ) (trend : String) (b : ℕ) (r : RngState)
    (h2 : 2 ≤ n) (hb : 1 ≤ b)
    (ht : trend ∈ (["nc", "c", "ct", "ctt"] : List String)) :
    (adf_simulation n trend b r).length = b ∧
      (∃ z : Mat (n - 1) 3, trendZ "ctt" (n - 1) = some ⟨3, z⟩) :=
  ⟨by simp [adf_simulation], ⟨_, trendZ_ctt (n - 1)⟩⟩

/-- Witness for C9 at `n = 2`, `b = 1`, trend `'nc'`. -/
theorem shape_invariants_witness :
    (2 ≤ 2 ∧ 1 ≤ 1 ∧ "nc" ∈ (["nc", "c", "ct", "ctt"] : List String)) ∧
      ((adf_simulation 2 "nc" 1 ⟨pulse, 0⟩).length = 1 ∧
        (∃ z : Mat (2 - 1) 3, trendZ "ctt" (2 - 1) = some ⟨3, z⟩)) :=
  ⟨⟨le_refl 2, le_refl 1, by decide⟩,
    shape_invariants 2 "nc" 1 ⟨pulse, 0⟩ (le_refl 2) (le_refl 1) (by decide)⟩

/-- C2: `adf_simulation` computes exactly the algorithm the spec describes —
the source-side statistic vector coincides with the spec-side `simulate`
(§4.2) at the matching trend tag, for every sample size `n ≥ 2`, batch width
`b ≥ 1` and rng state. -/
theorem adf_simulation_refines_spec (n : ℕ) (ts : TrendSpec) (b : ℕ)
    (r : RngState) (h2 : 2 ≤ n) (hb : 1 ≤ b) :
    adf_simulation n (tagOf ts) b r = simulateSpec n ts b r := by
  have h1n : 1 ≤ n := by omega
  have hcoeff : ((n - 1 : ℕ) : ℚ) = (n : ℚ) - 1 := by
    rw [Nat.cast_sub h1n, Nat.cast_one]
  have hlhs : specLhs n b r = lhsM n b r := rfl
  have hrhs : specRhs n b r = rhsM n b r := rfl
  have hdet : ∀ s : Mat (n - 1) b,
      detrendOpt (tagOf ts) s = projectSpec (buildSpec ts (n - 1)).2 s := by
    intro s
    cases ts with
    | none =>
        rw [projectSpec_zero_cols]
        exact detrendOpt_nc s
    | constant =>
        show detrendOpt "c" s = _
        simp only [detrendOpt, trendZ_c]
        rfl
    | constantTrend =>
        show detrendOpt "ct" s = _
        simp only [detrendOpt, trendZ_ct]
        rfl
    | constantTrendTrend2 =>
        show detrendOpt "ctt" s = _
        simp only [detrendOpt, trendZ_ctt]
        rfl
  simp only [adf_simulation, simulateSpec, lhsDetrended, rhsDetrended,
    hlhs, hrhs, hdet]
  refine congrArg List.ofFn (funext fun j => ?_)
  simp only [adfStat, hcoeff]

/-- Witness for C2 at `n = 2`, trend `constant`, `b = 1`. -/
theorem adf_simulation_refines_spec_witness :
    (2 ≤ 2 ∧ 1 ≤ 1) ∧
      adf_simulation 2 (tagOf TrendSpec.constant) 1 ⟨pulse, 0⟩ =
        simulateSpec 2 TrendSpec.constant 1 ⟨pulse, 0⟩ :=
  ⟨⟨le_refl 2, le_refl 1⟩,
    adf_simulation_refines_spec 2 TrendSpec.constant 1 ⟨pulse, 0⟩
      (le_refl 2) (le_refl 1)⟩
